import Mathlib

/-!
Verification of the bamboo terminal multiplexer core.

This file gives a shallow embedding of the pure state and algorithms of the
program (src/app.rs, src/events.rs, src/pane.rs, src/pty.rs, src/ui.rs) and
proves properties of the layout engine, the input encoder, the app-state
operations and the PTY event stream.

Machine integers (`u16`, `usize`) are modelled as `Nat`; Rust `saturating_sub`
coincides with truncated `Nat` subtraction, and every addition/multiplication
performed by the modelled code stays far below the respective bit widths
(heights are bounded by the screen height, weights by 50, the single `u32`
product `remaining * weight` is below 2^32), so plain `Nat` arithmetic is
faithful.  IO handles (PTY master, writer, parser, channels) carry no pure
state relevant to the claims and are omitted from the pane model; fallible
IO actions are passed in as explicit results.
-/

namespace Bamboo

/-- `ratatui::layout::Rect` (u16 fields). -/
structure Rect where
  x : Nat
  y : Nat
  width : Nat
  height : Nat
deriving Repr, DecidableEq, Inhabited

/-- The pure per-pane state of `Pane` (src/pane.rs).  The PTY master, writer,
parser handle and the take-once `pty_rx` endpoint are IO resources and are not
part of the pure model; `scrollback` is kept only as its length, which is all
the pure operations consult. -/
structure PaneData where
  id : Nat
  name : String
  scroll_offset : Nat
  cols : Nat
  rows : Nat
  scrollback_len : Nat
  closed : Bool
  collapsed : Bool
  weight : Nat
deriving Repr, DecidableEq, Inhabited

/-- `Pane::new` (src/pane.rs): fresh pane state. -/
def PaneData.new (id : Nat) (name : String) (cols rows : Nat) : PaneData :=
  { id := id, name := name, scroll_offset := 0, cols := cols, rows := rows,
    scrollback_len := 0, closed := false, collapsed := false, weight := 10 }

/-- `Pane::scroll_up`: saturating add then clamp to the scrollback length. -/
def PaneData.scroll_up (p : PaneData) (lines : Nat) : PaneData :=
  let o := p.scroll_offset + lines
  { p with scroll_offset := if p.scrollback_len < o then p.scrollback_len else o }

/-- `Pane::scroll_down`: saturating subtraction. -/
def PaneData.scroll_down (p : PaneData) (lines : Nat) : PaneData :=
  { p with scroll_offset := p.scroll_offset - lines }

/-- `Pane::resize`: no-op on zero or unchanged dimensions, otherwise records
the new size (the PTY/parser side effects are outside the pure model). -/
def PaneData.resize (p : PaneData) (cols rows : Nat) : PaneData :=
  if cols = 0 ∨ rows = 0 then p
  else if cols = p.cols ∧ rows = p.rows then p
  else { p with cols := cols, rows := rows }

/-- In-place update of the element at index `i` (Rust `get_mut`); identity
when the index is out of range. -/
def modifyAt (l : List PaneData) (i : Nat) (f : PaneData → PaneData) : List PaneData :=
  match l, i with
  | [], _ => []
  | p :: rest, 0 => f p :: rest
  | p :: rest, Nat.succ j => p :: modifyAt rest j f

/-- The pure app state (src/app.rs `AppState`). -/
structure AppState where
  panes : List PaneData
  focused : Nat
  should_quit : Bool
  last_pane_areas : List (Nat × Rect)
  term_cols : Nat
  term_rows : Nat
  default_shell : String
  next_pane_id : Nat
  viewport_start : Nat
deriving Repr, DecidableEq, Inhabited

/-- `AppState::new`. -/
def AppState.new (panes : List PaneData) (default_shell : String) : AppState :=
  { panes := panes, focused := 0, should_quit := false, last_pane_areas := [],
    term_cols := 0, term_rows := 0, default_shell := default_shell,
    next_pane_id := panes.length, viewport_start := 0 }

/-- `AppState::focus`. -/
def AppState.focus (s : AppState) (idx : Nat) : AppState :=
  if idx < s.panes.length then { s with focused := idx } else s

/-- `AppState::focus_next`. -/
def AppState.focus_next (s : AppState) : AppState :=
  if s.panes.length = 0 then s
  else { s with focused := (s.focused + 1) % s.panes.length }

/-- `AppState::focus_prev`. -/
def AppState.focus_prev (s : AppState) : AppState :=
  if s.panes.length = 0 then s
  else { s with focused := (s.focused + s.panes.length - 1) % s.panes.length }

/-- `AppState::toggle_collapse_focused`. -/
def AppState.toggle_collapse_focused (s : AppState) : AppState :=
  { s with panes := modifyAt s.panes s.focused (fun p => { p with collapsed := !p.collapsed }) }

/-- `AppState::toggle_collapse_at`. -/
def AppState.toggle_collapse_at (s : AppState) (idx : Nat) : AppState :=
  { s with panes := modifyAt s.panes idx (fun p => { p with collapsed := !p.collapsed }) }

/-- `AppState::grow_focused_weight`: only on a non-collapsed focused pane,
`weight.saturating_add(delta).min(50)`. -/
def AppState.grow_focused_weight (s : AppState) (delta : Nat) : AppState :=
  { s with panes := modifyAt s.panes s.focused (fun p =>
      if p.collapsed then p else { p with weight := min (p.weight + delta) 50 }) }

/-- `AppState::shrink_focused_weight`: only on a non-collapsed focused pane,
`weight.saturating_sub(delta).max(1)`. -/
def AppState.shrink_focused_weight (s : AppState) (delta : Nat) : AppState :=
  { s with panes := modifyAt s.panes s.focused (fun p =>
      if p.collapsed then p else { p with weight := max (p.weight - delta) 1 }) }

/-- `AppState::take_next_pane_id`: returns the current counter and increments it. -/
def AppState.take_next_pane_id (s : AppState) : Nat × AppState :=
  (s.next_pane_id, { s with next_pane_id := s.next_pane_id + 1 })

/-- `AppState::add_pane`: append and focus the new pane. -/
def AppState.add_pane (s : AppState) (p : PaneData) : AppState :=
  let panes := s.panes ++ [p]
  { s with panes := panes, focused := panes.length - 1 }

/-- `AppState::close_pane` (src/app.rs lines 89-103). -/
def AppState.close_pane (s : AppState) (idx : Nat) : Bool × AppState :=
  if s.panes.length ≤ 1 ∨ s.panes.length ≤ idx then (false, s)
  else
    let panes := s.panes.eraseIdx idx
    let focused :=
      if idx < s.focused then s.focused - 1
      else if panes.length ≤ s.focused then panes.length - 1
      else s.focused
    let vs :=
      if 0 < s.viewport_start ∧ panes.length ≤ s.viewport_start
      then panes.length - 1 else s.viewport_start
    (true, { s with panes := panes, focused := focused, viewport_start := vs })

/-- `AppState::remove_focused_pane`. -/
def AppState.remove_focused_pane (s : AppState) : Bool × AppState :=
  s.close_pane s.focused

/-- `AppState::page_viewport_up`. -/
def AppState.page_viewport_up (s : AppState) : AppState :=
  let page := max s.last_pane_areas.length 1
  { s with viewport_start := s.viewport_start - page }

/-- `AppState::page_viewport_down`. -/
def AppState.page_viewport_down (s : AppState) : AppState :=
  let page := max s.last_pane_areas.length 1
  let m := s.panes.length - 1
  { s with viewport_start := min (s.viewport_start + page) m }

/-! ## Layout engine (src/ui.rs) -/

def COLLAPSED_HEIGHT : Nat := 3
def MIN_EXPANDED_HEIGHT : Nat := 5
def INDICATOR_HEIGHT : Nat := 1

/-- Minimum height of a pane in the fit pass. -/
def minPaneHeight (p : PaneData) : Nat :=
  if p.collapsed then COLLAPSED_HEIGHT else MIN_EXPANDED_HEIGHT

/-- Space reserved for a "below" indicator after pane `i`
(`below_after = len.saturating_sub(i+1); if below_after > 0 {1} else {0}`). -/
def reservedBelow (len i : Nat) : Nat :=
  if 0 < len - (i + 1) then INDICATOR_HEIGHT else 0

/-- `min_h` of pane `i` (`app.panes[i]`, in range at every use site). -/
def minAt (panes : List PaneData) (i : Nat) : Nat :=
  minPaneHeight (panes.getD i default)

/-- `app.panes[i].weight`. -/
def weightAt (panes : List PaneData) (i : Nat) : Nat :=
  (panes.getD i default).weight

/-- `app.panes[i].collapsed`. -/
def collapsedAt (panes : List PaneData) (i : Nat) : Bool :=
  (panes.getD i default).collapsed

/-- First pass of `compute_visible_layout` (src/ui.rs lines 66-87): walk panes
from index `i`, admitting each pane whose minimum height plus the below
indicator reservation fits, always admitting at least one.  The `for` loop is
modelled with explicit fuel; the callers pass `panes.length` fuel, which is
enough for the loop to reach `i ≥ panes.length` on its own, so exhaustion
never alters the result. -/
def fitLoop (panes : List PaneData) : Nat → Nat → Nat → List Nat → List Nat × Nat
  | 0, _, remaining, visible => (visible, remaining)
  | fuel + 1, i, remaining, visible =>
    if i < panes.length then
      if remaining < minAt panes i + reservedBelow panes.length i ∧ visible ≠ []
      then (visible, remaining)
      else fitLoop panes fuel (i + 1) (remaining - minAt panes i) (visible ++ [i])
    else (visible, remaining)

/-- Loop body of `compute_visible_end` (src/ui.rs lines 159-173), the exact
twin of the fit pass that tracks only the end index.  Same fuel convention as
`fitLoop`. -/
def endLoop (panes : List PaneData) (start : Nat) : Nat → Nat → Nat → Nat → Nat
  | 0, _, _, e => e
  | fuel + 1, i, remaining, e =>
    if i < panes.length then
      if remaining < minAt panes i + reservedBelow panes.length i ∧ start < e
      then e
      else endLoop panes start fuel (i + 1) (remaining - minAt panes i) (i + 1)
    else e

/-- `compute_visible_end` (src/ui.rs lines 154-176). -/
def compute_visible_end (panes : List PaneData) (start total_height : Nat) : Nat :=
  let remaining := total_height - (if 0 < start then INDICATOR_HEIGHT else 0)
  endLoop panes start panes.length start remaining start

/-- Weights of the non-collapsed admitted panes, in admission order
(the source accumulates `total_weight` over exactly these). -/
def expandedWeights (panes : List PaneData) (visible : List Nat) : List Nat :=
  (visible.filter (fun i => !collapsedAt panes i)).map (weightAt panes)

/-- Whether any admitted pane is expanded (`!expanded_indices.is_empty()`). -/
def hasExpanded (panes : List PaneData) (visible : List Nat) : Bool :=
  visible.any (fun i => !collapsedAt panes i)

/-- Slack distribution (src/ui.rs lines 105-118): walk the admitted panes;
collapsed panes keep their minimum height; each expanded pane except the last
receives `remaining * weight / total_weight` extra rows (`d` accumulates the
rows already distributed); the last expanded pane absorbs `remaining - d`. -/
def distLoop (panes : List PaneData) (remaining totalWeight : Nat) :
    Nat → List Nat → List Nat
  | _, [] => []
  | d, i :: rest =>
    if collapsedAt panes i then
      minAt panes i :: distLoop panes remaining totalWeight d rest
    else if hasExpanded panes rest then
      (minAt panes i + remaining * weightAt panes i / totalWeight)
        :: distLoop panes remaining totalWeight
            (d + remaining * weightAt panes i / totalWeight) rest
    else (minAt panes i + (remaining - d)) :: distLoop panes remaining totalWeight d rest

/-- Heights of the admitted panes (src/ui.rs lines 94-118): minimum heights,
plus the weighted slack distribution when there is an expanded admitted pane,
positive remaining space and positive total weight. -/
def paneHeights (panes : List PaneData) (visible : List Nat)
    (remaining totalWeight : Nat) : List Nat :=
  if hasExpanded panes visible ∧ 0 < remaining ∧ 0 < totalWeight
  then distLoop panes remaining totalWeight 0 visible
  else visible.map (minAt panes)

/-- Rectangle emission (src/ui.rs lines 120-126): stack the admitted panes
vertically from `y`, sharing `x` and `width` with the screen. -/
def emitRects (x width : Nat) : List (Nat × Nat) → Nat → List (Nat × Rect)
  | [], _ => []
  | (i, h) :: rest, y => (i, ⟨x, y, width, h⟩) :: emitRects x width rest (y + h)

/-- `compute_visible_layout` (src/ui.rs lines 50-129): returns the list of
`(pane index, rectangle)` pairs for the visible panes and the index of the
first pane below the visible window. -/
def compute_visible_layout (panes : List PaneData) (start : Nat) (area : Rect) :
    List (Nat × Rect) × Nat :=
  let total_height := area.height
  let hasAbove := 0 < start
  let usableTop := if hasAbove then area.y + INDICATOR_HEIGHT else area.y
  let rem0 := total_height - (if hasAbove then INDICATOR_HEIGHT else 0)
  let fr := fitLoop panes panes.length start rem0 []
  let visible := fr.1
  let visible_end := ((visible.getLast?).map (fun i => i + 1)).getD start
  let hasBelow := visible_end < panes.length
  let remaining := fr.2 - (if hasBelow then INDICATOR_HEIGHT else 0)
  let totalWeight := (expandedWeights panes visible).sum
  let heights := paneHeights panes visible remaining totalWeight
  (emitRects area.x area.width (visible.zip heights) usableTop, visible_end)

/-- Loop of `ensure_focused_visible` (src/ui.rs lines 141-151), with explicit
fuel; `none` models fuel exhaustion, which is never reached with
`panes.length` fuel because the loop breaks at the latest when the
incremented `viewport_start` is clamped at `len - 1`. -/
def ensureLoop (panes : List PaneData) (focused total_height : Nat) :
    Nat → Nat → Option Nat
  | 0, _ => none
  | fuel + 1, vs =>
    if focused < compute_visible_end panes vs total_height then some vs
    else if panes.length ≤ vs + 1 then some (panes.length - 1)
    else ensureLoop panes focused total_height fuel (vs + 1)

/-- `ensure_focused_visible` (src/ui.rs lines 131-152), returning the new
`viewport_start`. -/
def ensure_focused_visible (panes : List PaneData) (focused vs total_height : Nat) :
    Nat :=
  if panes.length = 0 then vs
  else if focused < vs then focused
  else (ensureLoop panes focused total_height panes.length vs).getD vs

/-! ## Key encoding (src/events.rs `key_event_to_bytes`) -/

/-- Key codes reaching the encoder; `char c` carries the Unicode scalar value.
`other` stands for every `crossterm::event::KeyCode` constructor matched by
the final wildcard arm. -/
inductive KeyCode where
  | char (c : Nat)
  | enter
  | backspace
  | tab
  | esc
  | up
  | down
  | right
  | left
  | home
  | endk
  | pageUp
  | pageDown
  | insert
  | delete
  | f (n : Nat)
  | other
deriving Repr, DecidableEq

/-- Standard UTF-8 encoding of a Unicode scalar value (Rust
`char::encode_utf8`). -/
def utf8Encode (c : Nat) : List Nat :=
  if c < 0x80 then [c]
  else if c < 0x800 then [0xC0 + c / 64, 0x80 + c % 64]
  else if c < 0x10000 then [0xE0 + c / 4096, 0x80 + c / 64 % 64, 0x80 + c % 64]
  else [0xF0 + c / 262144, 0x80 + c / 4096 % 64, 0x80 + c / 64 % 64, 0x80 + c % 64]

/-- `key_event_to_bytes` (src/events.rs lines 297-343).  For `Ctrl+Char(c)`
the source computes `(c as u8).wrapping_sub(b'a').wrapping_add(1)`, i.e.
`(c % 256 + 160) % 256` on the truncated low byte, and keeps the result only
when it lies in `1..=26`. -/
def key_event_to_bytes (code : KeyCode) (ctrl : Bool) : Option (List Nat) :=
  match code with
  | .char c =>
    if ctrl then
      let byte := (c % 256 + 160) % 256
      if 1 ≤ byte ∧ byte ≤ 26 then some [byte] else none
    else some (utf8Encode c)
  | .enter => some [0x0D]
  | .backspace => some [0x7F]
  | .tab => some [0x09]
  | .esc => some [0x1B]
  | .up => some [0x1B, 0x5B, 0x41]
  | .down => some [0x1B, 0x5B, 0x42]
  | .right => some [0x1B, 0x5B, 0x43]
  | .left => some [0x1B, 0x5B, 0x44]
  | .home => some [0x1B, 0x5B, 0x48]
  | .endk => some [0x1B, 0x5B, 0x46]
  | .pageUp => some [0x1B, 0x5B, 0x35, 0x7E]
  | .pageDown => some [0x1B, 0x5B, 0x36, 0x7E]
  | .insert => some [0x1B, 0x5B, 0x32, 0x7E]
  | .delete => some [0x1B, 0x5B, 0x33, 0x7E]
  | .f n =>
    match n with
    | 1 => some [0x1B, 0x4F, 0x50]
    | 2 => some [0x1B, 0x4F, 0x51]
    | 3 => some [0x1B, 0x4F, 0x52]
    | 4 => some [0x1B, 0x4F, 0x53]
    | 5 => some [0x1B, 0x5B, 0x31, 0x35, 0x7E]
    | 6 => some [0x1B, 0x5B, 0x31, 0x37, 0x7E]
    | 7 => some [0x1B, 0x5B, 0x31, 0x38, 0x7E]
    | 8 => some [0x1B, 0x5B, 0x31, 0x39, 0x7E]
    | 9 => some [0x1B, 0x5B, 0x32, 0x30, 0x7E]
    | 10 => some [0x1B, 0x5B, 0x32, 0x31, 0x7E]
    | 11 => some [0x1B, 0x5B, 0x32, 0x33, 0x7E]
    | 12 => some [0x1B, 0x5B, 0x32, 0x34, 0x7E]
    | _ => none
  | .other => none

/-- The spec's encoding table (section 4.7), written row by row in the spec's
order, with the Ctrl row amended to the low-byte rule that the source actually
implements: the spec's "Ctrl+letter a–z → 1..26, other keys dropped" holds of
it on a–z, but any character whose truncated low byte lands in `a..z` (for
example U+0161) is also encoded. -/
def specKeyBytes (code : KeyCode) (ctrl : Bool) : Option (List Nat) :=
  match code, ctrl with
  | .char c, false => some (utf8Encode c)
  | .char c, true =>
    let byte := (c % 256 + 160) % 256
    if 1 ≤ byte ∧ byte ≤ 26 then some [byte] else none
  | .enter, _ => some [0x0D]
  | .backspace, _ => some [0x7F]
  | .tab, _ => some [0x09]
  | .esc, _ => some [0x1B]
  | .up, _ => some [0x1B, 0x5B, 0x41]
  | .down, _ => some [0x1B, 0x5B, 0x42]
  | .right, _ => some [0x1B, 0x5B, 0x43]
  | .left, _ => some [0x1B, 0x5B, 0x44]
  | .home, _ => some [0x1B, 0x5B, 0x48]
  | .endk, _ => some [0x1B, 0x5B, 0x46]
  | .pageUp, _ => some [0x1B, 0x5B, 0x35, 0x7E]
  | .pageDown, _ => some [0x1B, 0x5B, 0x36, 0x7E]
  | .insert, _ => some [0x1B, 0x5B, 0x32, 0x7E]
  | .delete, _ => some [0x1B, 0x5B, 0x33, 0x7E]
  | .f 1, _ => some [0x1B, 0x4F, 0x50]
  | .f 2, _ => some [0x1B, 0x4F, 0x51]
  | .f 3, _ => some [0x1B, 0x4F, 0x52]
  | .f 4, _ => some [0x1B, 0x4F, 0x53]
  | .f 5, _ => some [0x1B, 0x5B, 0x31, 0x35, 0x7E]
  | .f 6, _ => some [0x1B, 0x5B, 0x31, 0x37, 0x7E]
  | .f 7, _ => some [0x1B, 0x5B, 0x31, 0x38, 0x7E]
  | .f 8, _ => some [0x1B, 0x5B, 0x31, 0x39, 0x7E]
  | .f 9, _ => some [0x1B, 0x5B, 0x32, 0x30, 0x7E]
  | .f 10, _ => some [0x1B, 0x5B, 0x32, 0x31, 0x7E]
  | .f 11, _ => some [0x1B, 0x5B, 0x32, 0x33, 0x7E]
  | .f 12, _ => some [0x1B, 0x5B, 0x32, 0x34, 0x7E]
  | .f _, _ => none
  | .other, _ => none

/-! ## Title rendering (src/ui.rs `render_pane` lines 208-222) -/

/-- Total number of UTF-8 bytes of a string (Rust `str::len`). -/
def utf8Len (s : List Char) : Nat :=
  (s.map (fun c => (utf8Encode c.toNat).length)).sum

/-- Byte slicing `&s[..n]` of a UTF-8 string, as the list of characters of the
prefix; `none` models the Rust panic when `n` is not a character boundary (or
is past the end of the string). -/
def truncBytes : List Char → Nat → Option (List Char)
  | _, 0 => some []
  | [], _ + 1 => none
  | c :: rest, n + 1 =>
    let k := (utf8Encode c.toNat).length
    if n + 1 < k then none
    else (truncBytes rest (n + 1 - k)).map (fun l => c :: l)

/-- The name-plus-status string of the title row (src/ui.rs lines 209-215). -/
def statusString (name : String) (collapsed : Bool) (scroll_offset weight : Nat) :
    List Char :=
  if collapsed then name.data
  else if 0 < scroll_offset then
    (name ++ " [scroll: -" ++ Nat.repr scroll_offset ++ "]").data
  else (name ++ " (w:" ++ Nat.repr weight ++ ")").data

/-- The displayed title text (src/ui.rs lines 216-221): when the status string
is longer than `width - 10` bytes it is byte-sliced to that many bytes;
`none` models the panic raised when the slice boundary falls inside a
multi-byte character. -/
def renderTitleText (name : String) (collapsed : Bool)
    (scroll_offset weight width : Nat) : Option (List Char) :=
  let status := statusString name collapsed scroll_offset weight
  let maxNameLen := width - 10
  if maxNameLen < utf8Len status then truncBytes status maxNameLen
  else some status

/-! ## Spawn-new-pane (src/events.rs `spawn_new_pane` lines 163-217) -/

/-- `spawn_new_pane`: the PTY open/spawn result is passed in as a boolean
(`pty::spawn_pty` is IO).  The pane id is taken (incrementing the counter)
before the fallible spawn; on failure the function returns with no other
change; on success the fresh pane is appended and focused.  The reader and
forwarder tasks started on success carry no app state. -/
def spawn_new_pane (s : AppState) (spawnOk : Bool) : AppState :=
  let r := s.take_next_pane_id
  let pane_id := r.1
  let s1 := r.2
  let name := "Shell " ++ Nat.repr pane_id
  let cols := max (s1.term_cols - 2) 10
  let n_panes := s1.panes.length + 1
  let rows := max (s1.term_rows / n_panes - 2) 5
  if spawnOk then s1.add_pane (PaneData.new pane_id name cols rows)
  else s1

/-- `handle_resize` (src/events.rs lines 292-295). -/
def handle_resize (s : AppState) (cols rows : Nat) : AppState :=
  { s with term_cols := cols, term_rows := rows }

/-- `PtyEvent::Closed` handling in the main loop (src/events.rs lines 82-86):
latch `closed` on the first pane with the given id. -/
def closeFirst (pane_id : Nat) : List PaneData → List PaneData
  | [] => []
  | p :: rest =>
    if p.id = pane_id then { p with closed := true } :: rest
    else p :: closeFirst pane_id rest

/-- Block interior of a bordered pane rectangle (`Block::inner` with all
borders): one row/column removed on each side. -/
def innerRect (r : Rect) : Rect :=
  ⟨r.x + 1, r.y + 1, r.width - 2, r.height - 2⟩

/-- The pane resizes performed by the renderer (src/ui.rs lines 240-242):
each visible expanded pane whose inner area differs from its recorded size is
resized. -/
def applyLayoutResizes (layout : List (Nat × Rect)) (panes : List PaneData) :
    List PaneData :=
  layout.foldl
    (fun acc pr =>
      modifyAt acc pr.1 (fun p =>
        if p.collapsed then p
        else if (innerRect pr.2).width = p.cols ∧ (innerRect pr.2).height = p.rows
        then p
        else p.resize (innerRect pr.2).width (innerRect pr.2).height))
    panes

/-- One rendered frame (src/ui.rs `render` lines 14-48) as it affects the app
state: adjust the viewport, publish the layout for hit-testing, and resize the
visible panes to their inner areas. -/
def renderFrame (s : AppState) (area : Rect) : AppState :=
  if area.height = 0 ∨ area.width = 0 then s
  else
    let vs := ensure_focused_visible s.panes s.focused s.viewport_start area.height
    let layout := (compute_visible_layout s.panes vs area).1
    { s with viewport_start := vs, last_pane_areas := layout,
             panes := applyLayoutResizes layout s.panes }

/-- Every operation of the main loop that touches the app state or a pane.
`spawnNewPane` carries the PTY spawn outcome; `ptyData`/`tick` are the no-op
events. -/
inductive AppOp where
  | focus (i : Nat)
  | focusNext
  | focusPrev
  | toggleCollapseFocused
  | toggleCollapseAt (i : Nat)
  | growFocusedWeight (d : Nat)
  | shrinkFocusedWeight (d : Nat)
  | closePane (i : Nat)
  | removeFocusedPane
  | spawnNewPane (ok : Bool)
  | pageViewportUp
  | pageViewportDown
  | resizeTerm (cols rows : Nat)
  | scrollFocusedUp (n : Nat)
  | scrollFocusedDown (n : Nat)
  | ptyClosed (pane_id : Nat)
  | ptyData (pane_id : Nat)
  | tick
  | quit
  | renderFrame (area : Rect)
deriving Repr, DecidableEq

/-- Interpretation of `AppOp` by the corresponding source operation. -/
def applyOp (s : AppState) : AppOp → AppState
  | .focus i => s.focus i
  | .focusNext => s.focus_next
  | .focusPrev => s.focus_prev
  | .toggleCollapseFocused => s.toggle_collapse_focused
  | .toggleCollapseAt i => s.toggle_collapse_at i
  | .growFocusedWeight d => s.grow_focused_weight d
  | .shrinkFocusedWeight d => s.shrink_focused_weight d
  | .closePane i => (s.close_pane i).2
  | .removeFocusedPane => s.remove_focused_pane.2
  | .spawnNewPane ok => spawn_new_pane s ok
  | .pageViewportUp => s.page_viewport_up
  | .pageViewportDown => s.page_viewport_down
  | .resizeTerm c r => handle_resize s c r
  | .scrollFocusedUp n =>
    { s with panes := modifyAt s.panes s.focused (fun p => p.scroll_up n) }
  | .scrollFocusedDown n =>
    { s with panes := modifyAt s.panes s.focused (fun p => p.scroll_down n) }
  | .ptyClosed pid => { s with panes := closeFirst pid s.panes }
  | .ptyData _ => s
  | .tick => s
  | .quit => { s with should_quit := true }
  | .renderFrame area => Bamboo.renderFrame s area

/-! ## PTY reader and forwarder event streams (src/pty.rs, src/main.rs) -/

/-- Result of one blocking `read` on the PTY master: `ok bytes` is `Ok(n)`
with the `n` bytes read (`ok []` is the zero-length EOF read), `err` any read
error. -/
inductive ReadResult where
  | ok (bytes : List Nat)
  | err
deriving Repr, DecidableEq

/-- A PTY event (src/pty.rs `PtyEvent`). -/
inductive PtyEventM where
  | data (bytes : List Nat)
  | closed
deriving Repr, DecidableEq

/-- The events emitted by the reader task (src/pty.rs `launch_reader_task`
lines 86-107) over a trace of read results, the channel accepting every send:
each non-empty read feeds the parser and emits `Data`; the first zero-length
read or error emits `Closed` and the task exits.  A trace with no terminal
read yields the events emitted so far. -/
def readerEmits : List ReadResult → List PtyEventM
  | [] => []
  | .ok bytes :: rest =>
    if bytes = [] then [.closed] else .data bytes :: readerEmits rest
  | .err :: _ => [.closed]

/-- The per-pane forwarder task (src/main.rs lines 90-106 and src/events.rs
lines 203-216): forward each event, and stop right after forwarding a
`Closed`. -/
def forwardPane : List PtyEventM → List PtyEventM
  | [] => []
  | e :: rest => if e = .closed then [e] else e :: forwardPane rest

/-- The weight invariant of the data model: every pane's weight is in [1,50]. -/
def WeightInv (s : AppState) : Prop :=
  ∀ p ∈ s.panes, 1 ≤ p.weight ∧ p.weight ≤ 50

/-! ## Theorems -/

/-- C3 counterexample: `Ctrl+Char(U+0161)` (š, not a letter a–z) is not
dropped; its truncated low byte is 0x61 = letter a, so the encoder emits the
Ctrl-A byte. -/
theorem ctrl_char_outside_letters_not_dropped :
    key_event_to_bytes (KeyCode.char 0x161) true = some [1]
    ∧ ¬(97 ≤ 0x161 ∧ 0x161 ≤ 122) := by
  decide

/-- C3 (amended): the encoder matches the spec's table row for row, with the
Ctrl row read on the truncated low byte of the character: Ctrl+letter a–z
gives the single byte 1..26, a printable character without Ctrl gives its
UTF-8 bytes, Enter gives 0x0D, arrows give ESC [ A/B/C/D, F1-F12 give the
listed sequences, and every unlisted key is dropped. -/
theorem key_encoding_matches_table (code : KeyCode) (ctrl : Bool) :
    key_event_to_bytes code ctrl = specKeyBytes code ctrl := by
  cases code <;> cases ctrl <;>
    first
      | rfl
      | (rename_i n
         rcases n with _ | _ | _ | _ | _ | _ | _ | _ | _ | _ | _ | _ | _ | n <;> rfl)

/-- C3 witness for the amended table: Ctrl+a encodes to the single byte 1. -/
theorem key_encoding_matches_table_witness :
    key_event_to_bytes (KeyCode.char 97) true = specKeyBytes (KeyCode.char 97) true :=
  key_encoding_matches_table (KeyCode.char 97) true

/-- C4: `close_pane` refuses (returning `false` and leaving the state
unchanged) when there are at most one pane or the index is out of range;
otherwise it removes pane `idx`, decrements `focused` when it was past `idx`,
clamps it to the new last index when it would fall off the end, and leaves
`focused` and `viewport_start` indexing existing panes. -/
theorem close_pane_spec (s : AppState) (idx : Nat)
    (hf : s.focused < s.panes.length) :
    ((s.panes.length ≤ 1 ∨ s.panes.length ≤ idx) → s.close_pane idx = (false, s))
    ∧ (1 < s.panes.length → idx < s.panes.length →
      (s.close_pane idx).1 = true
      ∧ (s.close_pane idx).2.panes = s.panes.eraseIdx idx
      ∧ (s.close_pane idx).2.panes.length = s.panes.length - 1
      ∧ (idx < s.focused → (s.close_pane idx).2.focused = s.focused - 1)
      ∧ (s.focused ≤ idx → s.panes.length - 1 ≤ s.focused →
          (s.close_pane idx).2.focused = s.panes.length - 2)
      ∧ (s.focused ≤ idx → s.focused < s.panes.length - 1 →
          (s.close_pane idx).2.focused = s.focused)
      ∧ (s.close_pane idx).2.focused < (s.close_pane idx).2.panes.length
      ∧ (s.close_pane idx).2.viewport_start < (s.close_pane idx).2.panes.length) := by
  have herase : (s.panes.eraseIdx idx).length =
      if idx < s.panes.length then s.panes.length - 1 else s.panes.length :=
    List.length_eraseIdx s.panes idx
  constructor
  · intro h
    simp [AppState.close_pane, h]
  · intro h1 h2
    have hcond : ¬(s.panes.length ≤ 1 ∨ s.panes.length ≤ idx) := by omega
    rw [if_pos h2] at herase
    simp only [AppState.close_pane, if_neg hcond]
    refine ⟨by trivial, by trivial, herase, ?_, ?_, ?_, ?_, ?_⟩
    · intro h3; rw [if_pos h3]
    · intro h3 h4
      rw [if_neg (by omega), if_pos (by omega)]
      omega
    · intro h3 h4
      rw [if_neg (by omega), if_neg (by omega)]
    · simp only [herase]
      split_ifs <;> omega
    · simp only [herase]
      split_ifs <;> omega

/-- C4 witness: with two panes and the second focused, closing index 1
succeeds and refocuses index 0. -/
theorem close_pane_spec_witness :
    ((AppState.new [PaneData.new 0 "a" 10 5, PaneData.new 1 "b" 10 5] "sh").close_pane 1).1
      = true :=
  ((close_pane_spec (AppState.new [PaneData.new 0 "a" 10 5, PaneData.new 1 "b" 10 5] "sh")
      1 (by decide)).2 (by decide) (by decide)).1

/-- C6: the title-row rendering step is not total.  For the pane name "é"
(weight 10, live view) on a rectangle of width 11, the status string
"é (w:10)" is byte-sliced at `width - 10 = 1`, which falls inside the
two-byte UTF-8 encoding of 'é'; the Rust slice `&status[..1]` raises a panic
there (modelled as `none`), instead of the character-based truncation the
spec describes. -/
theorem render_title_truncation_partial :
    renderTitleText "é" false 0 10 11 = none := by
  decide

/-- C7: when the PTY open/spawn fails during Alt+n, the error is swallowed:
no pane is appended, and `focused` and `viewport_start` are unchanged. -/
theorem spawn_failure_swallowed (s : AppState) :
    (spawn_new_pane s false).panes = s.panes
    ∧ (spawn_new_pane s false).focused = s.focused
    ∧ (spawn_new_pane s false).viewport_start = s.viewport_start :=
  ⟨rfl, rfl, rfl⟩

/-- C10: `take_next_pane_id` runs before the fallible spawn, so a failed
spawn still increments `next_pane_id` while every other app-state field is
unchanged; and (for either spawn outcome) pane ids stay below `next_pane_id`
and pairwise distinct, so ids are unique and strictly monotonic with gaps at
failed spawns. -/
theorem spawn_id_monotonic (s : AppState) (ok : Bool)
    (hid : ∀ p ∈ s.panes, p.id < s.next_pane_id)
    (hnodup : (s.panes.map PaneData.id).Nodup) :
    ((spawn_new_pane s false).next_pane_id = s.next_pane_id + 1
     ∧ (spawn_new_pane s false).panes = s.panes
     ∧ (spawn_new_pane s false).focused = s.focused
     ∧ (spawn_new_pane s false).viewport_start = s.viewport_start
     ∧ (spawn_new_pane s false).should_quit = s.should_quit
     ∧ (spawn_new_pane s false).last_pane_areas = s.last_pane_areas
     ∧ (spawn_new_pane s false).term_cols = s.term_cols
     ∧ (spawn_new_pane s false).term_rows = s.term_rows
     ∧ (spawn_new_pane s false).default_shell = s.default_shell)
    ∧ (∀ p ∈ (spawn_new_pane s ok).panes, p.id < (spawn_new_pane s ok).next_pane_id)
    ∧ ((spawn_new_pane s ok).panes.map PaneData.id).Nodup := by
  refine ⟨⟨rfl, rfl, rfl, rfl, rfl, rfl, rfl, rfl, rfl⟩, ?_, ?_⟩
  all_goals cases ok
  · intro p hp
    exact Nat.lt_succ_of_lt (hid p hp)
  · intro p hp
    have hp' : p ∈ s.panes ++
        [PaneData.new s.next_pane_id ("Shell " ++ Nat.repr s.next_pane_id)
          (max (s.term_cols - 2) 10) (max (s.term_rows / (s.panes.length + 1) - 2) 5)] := hp
    rcases List.mem_append.mp hp' with h | h
    · exact Nat.lt_succ_of_lt (hid p h)
    · rw [List.mem_singleton.mp h]
      exact Nat.lt_succ_self _
  · exact hnodup
  · have hnew : s.next_pane_id ∉ s.panes.map PaneData.id := by
      intro hmem
      rcases List.mem_map.mp hmem with ⟨p, hp, hpid⟩
      exact absurd (hid p hp) (by omega)
    show ((s.panes ++
        [PaneData.new s.next_pane_id ("Shell " ++ Nat.repr s.next_pane_id)
          (max (s.term_cols - 2) 10)
          (max (s.term_rows / (s.panes.length + 1) - 2) 5)]).map PaneData.id).Nodup
    rw [List.map_append, List.nodup_append]
    refine ⟨hnodup, by simp, ?_⟩
    intro a ha hb
    have hab : a = s.next_pane_id := by simpa using hb
    rw [hab] at ha
    exact hnew ha

theorem mem_modifyAt {l : List PaneData} {i : Nat} {f : PaneData → PaneData}
    {q : PaneData} (hq : q ∈ modifyAt l i f) : q ∈ l ∨ ∃ p ∈ l, q = f p := by
  induction l generalizing i with
  | nil =>
    rw [modifyAt] at hq
    exact Or.inl hq
  | cons p rest ih =>
    cases i with
    | zero =>
      rw [modifyAt] at hq
      rcases List.mem_cons.mp hq with hq | hq
      · exact Or.inr ⟨p, List.mem_cons_self p rest, hq⟩
      · exact Or.inl (List.mem_cons_of_mem p hq)
    | succ j =>
      rw [modifyAt] at hq
      rcases List.mem_cons.mp hq with hq | hq
      · exact Or.inl (hq ▸ List.mem_cons_self p rest)
      · rcases ih hq with h | ⟨p', hp', hfp⟩
        · exact Or.inl (List.mem_cons_of_mem p h)
        · exact Or.inr ⟨p', List.mem_cons_of_mem p hp', hfp⟩

theorem mem_closeFirst {l : List PaneData} {pid : Nat} {q : PaneData}
    (hq : q ∈ closeFirst pid l) : q ∈ l ∨ ∃ p ∈ l, q = { p with closed := true } := by
  induction l with
  | nil =>
    rw [closeFirst] at hq
    exact Or.inl hq
  | cons p rest ih =>
    rw [closeFirst] at hq
    by_cases h : p.id = pid
    · rw [if_pos h] at hq
      rcases List.mem_cons.mp hq with hq | hq
      · exact Or.inr ⟨p, List.mem_cons_self p rest, hq⟩
      · exact Or.inl (List.mem_cons_of_mem p hq)
    · rw [if_neg h] at hq
      rcases List.mem_cons.mp hq with hq | hq
      · exact Or.inl (hq ▸ List.mem_cons_self p rest)
      · rcases ih hq with h' | ⟨p', hp', hfp⟩
        · exact Or.inl (List.mem_cons_of_mem p h')
        · exact Or.inr ⟨p', List.mem_cons_of_mem p hp', hfp⟩

theorem resize_weight (p : PaneData) (c r : Nat) : (p.resize c r).weight = p.weight := by
  rw [PaneData.resize]
  split_ifs <;> rfl

theorem weight_applyLayoutResizes {layout : List (Nat × Rect)} {panes : List PaneData}
    (h : ∀ p ∈ panes, 1 ≤ p.weight ∧ p.weight ≤ 50) :
    ∀ q ∈ applyLayoutResizes layout panes, 1 ≤ q.weight ∧ q.weight ≤ 50 := by
  induction layout generalizing panes with
  | nil => exact h
  | cons pr rest ih =>
    apply ih
    intro q hq
    rcases mem_modifyAt hq with h' | ⟨p, hp, hq'⟩
    · exact h q h'
    · have hw : q.weight = p.weight := by
        rw [hq']
        split_ifs <;> first | rfl | rw [resize_weight]
      rw [hw]
      exact h p hp

/-- C10 witness: a concrete state with one pane of id 0 and counter 1. -/
theorem spawn_id_monotonic_witness :
    ((spawn_new_pane (AppState.new [PaneData.new 0 "Shell" 10 5] "sh") false).next_pane_id
      = (AppState.new [PaneData.new 0 "Shell" 10 5] "sh").next_pane_id + 1) :=
  (spawn_id_monotonic (AppState.new [PaneData.new 0 "Shell" 10 5] "sh") true
    (by decide) (by decide)).1.1

/-- C5: every pane's weight stays in [1,50]: panes are created with weight 10
(`Pane::new`), grow/shrink clamp into [1,50] with saturating arithmetic and
only touch a non-collapsed focused pane, and no other operation of the main
loop changes any weight. -/
theorem weight_invariant_preserved (s : AppState) (op : AppOp) (h : WeightInv s) :
    WeightInv (applyOp s op)
    ∧ (∀ id name cols rows, (PaneData.new id name cols rows).weight = 10) := by
  refine ⟨?_, fun _ _ _ _ => rfl⟩
  cases op with
  | focus i =>
    intro p hp
    simp only [applyOp, AppState.focus] at hp
    split at hp <;> exact h p hp
  | focusNext =>
    intro p hp
    simp only [applyOp, AppState.focus_next] at hp
    split at hp <;> exact h p hp
  | focusPrev =>
    intro p hp
    simp only [applyOp, AppState.focus_prev] at hp
    split at hp <;> exact h p hp
  | toggleCollapseFocused =>
    intro p hp
    rcases mem_modifyAt hp with h' | ⟨q, hq, hpq⟩
    · exact h p h'
    · rw [hpq]; exact h q hq
  | toggleCollapseAt i =>
    intro p hp
    rcases mem_modifyAt hp with h' | ⟨q, hq, hpq⟩
    · exact h p h'
    · rw [hpq]; exact h q hq
  | growFocusedWeight d =>
    intro p hp
    rcases mem_modifyAt hp with h' | ⟨q, hq, hpq⟩
    · exact h p h'
    · rw [hpq]
      split_ifs with hc
      · exact h q hq
      · have := h q hq
        constructor
        · show 1 ≤ min (q.weight + d) 50
          omega
        · show min (q.weight + d) 50 ≤ 50
          omega
  | shrinkFocusedWeight d =>
    intro p hp
    rcases mem_modifyAt hp with h' | ⟨q, hq, hpq⟩
    · exact h p h'
    · rw [hpq]
      split_ifs with hc
      · exact h q hq
      · have := h q hq
        constructor
        · show 1 ≤ max (q.weight - d) 1
          omega
        · show max (q.weight - d) 1 ≤ 50
          omega
  | closePane i =>
    intro p hp
    simp only [applyOp, AppState.close_pane] at hp
    split at hp
    · exact h p hp
    · exact h p (List.eraseIdx_subset _ _ hp)
  | removeFocusedPane =>
    intro p hp
    simp only [applyOp, AppState.remove_focused_pane, AppState.close_pane] at hp
    split at hp
    · exact h p hp
    · exact h p (List.eraseIdx_subset _ _ hp)
  | spawnNewPane ok =>
    intro p hp
    cases ok with
    | false => exact h p hp
    | true =>
      have hp' : p ∈ s.panes ++
          [PaneData.new s.next_pane_id ("Shell " ++ Nat.repr s.next_pane_id)
            (max (s.term_cols - 2) 10)
            (max (s.term_rows / (s.panes.length + 1) - 2) 5)] := hp
      rcases List.mem_append.mp hp' with h' | h'
      · exact h p h'
      · rw [List.mem_singleton.mp h']
        show (1 : Nat) ≤ 10 ∧ (10 : Nat) ≤ 50
        decide
  | pageViewportUp => intro p hp; exact h p hp
  | pageViewportDown => intro p hp; exact h p hp
  | resizeTerm c r => intro p hp; exact h p hp
  | scrollFocusedUp n =>
    intro p hp
    rcases mem_modifyAt hp with h' | ⟨q, hq, hpq⟩
    · exact h p h'
    · rw [hpq]; exact h q hq
  | scrollFocusedDown n =>
    intro p hp
    rcases mem_modifyAt hp with h' | ⟨q, hq, hpq⟩
    · exact h p h'
    · rw [hpq]; exact h q hq
  | ptyClosed pid =>
    intro p hp
    rcases mem_closeFirst hp with h' | ⟨q, hq, hpq⟩
    · exact h p h'
    · rw [hpq]; exact h q hq
  | ptyData pid => intro p hp; exact h p hp
  | tick => intro p hp; exact h p hp
  | quit => intro p hp; exact h p hp
  | renderFrame area =>
    intro p hp
    simp only [applyOp, Bamboo.renderFrame] at hp
    split at hp
    · exact h p hp
    · exact weight_applyLayoutResizes h p hp

/-- C5 witness: growing the focused weight by 100 in a concrete one-pane
state keeps the invariant (the weight clamps at 50). -/
theorem weight_invariant_preserved_witness :
    WeightInv (applyOp (AppState.new [PaneData.new 0 "Shell" 10 5] "sh")
      (AppOp.growFocusedWeight 100)) :=
  (weight_invariant_preserved (AppState.new [PaneData.new 0 "Shell" 10 5] "sh")
    (AppOp.growFocusedWeight 100) (by rw [WeightInv]; decide)).1

theorem readerEmits_shape (rs : List ReadResult)
    (hterm : ∃ r ∈ rs, r = ReadResult.err ∨ r = ReadResult.ok []) :
    ∃ ds : List (List Nat),
      readerEmits rs = ds.map PtyEventM.data ++ [PtyEventM.closed] := by
  induction rs with
  | nil => simp at hterm
  | cons r rest ih =>
    cases r with
    | err => exact ⟨[], rfl⟩
    | ok bytes =>
      by_cases hb : bytes = ([] : List Nat)
      · refine ⟨[], ?_⟩
        rw [readerEmits, if_pos hb]
        rfl
      · have hterm' : ∃ r ∈ rest, r = ReadResult.err ∨ r = ReadResult.ok [] := by
          rcases hterm with ⟨r', hr', hc⟩
          rcases List.mem_cons.mp hr' with he | he

          · rcases hc with hc | hc <;> rw [hc] at he <;> simp_all
          · exact ⟨r', he, hc⟩
        rcases ih hterm' with ⟨ds, hds⟩
        refine ⟨bytes :: ds, ?_⟩
        rw [readerEmits, if_neg hb, hds]
        rfl

theorem forwardPane_data_closed (ds : List (List Nat)) (extra : List PtyEventM) :
    forwardPane (ds.map PtyEventM.data ++ (PtyEventM.closed :: extra))
      = ds.map PtyEventM.data ++ [PtyEventM.closed] := by
  induction ds with
  | nil =>
    rw [List.map_nil, List.nil_append, forwardPane, if_pos rfl]
    rfl
  | cons b ds ih =>
    rw [List.map_cons, List.cons_append, forwardPane, if_neg (by simp), ih]
    rfl

/-- C8: over any read trace that reaches EOF (a zero-length read) or a read
error — the channel accepting every send — the reader task's event stream is
a block of `Data` events followed by exactly one final `Closed`; and the
per-pane forwarder forwards that stream up to and including `Closed` and
forwards nothing after it, so `Closed` is the last event for the pane. -/
theorem closed_is_last_event (rs : List ReadResult) (extra : List PtyEventM)
    (hterm : ∃ r ∈ rs, r = ReadResult.err ∨ r = ReadResult.ok []) :
    (readerEmits rs).count PtyEventM.closed = 1
    ∧ (readerEmits rs).getLast? = some PtyEventM.closed
    ∧ forwardPane (readerEmits rs ++ extra) = readerEmits rs := by
  rcases readerEmits_shape rs hterm with ⟨ds, hds⟩
  have hcount : (ds.map PtyEventM.data).count PtyEventM.closed = 0 := by
    rw [List.count_eq_zero]
    intro hmem
    rcases List.mem_map.mp hmem with ⟨b, _, hb⟩
    exact PtyEventM.noConfusion hb
  refine ⟨?_, ?_, ?_⟩
  · rw [hds, List.count_append, hcount]
    rfl
  · rw [hds]
    exact List.getLast?_concat _
  · rw [hds, List.append_assoc]
    exact forwardPane_data_closed ds extra

theorem endLoop_ge (panes : List PaneData) (start : Nat) :
    ∀ fuel i r e, e ≤ i → e ≤ endLoop panes start fuel i r e := by
  intro fuel
  induction fuel with
  | zero => intro i r e _; exact Nat.le_refl e
  | succ fuel ih =>
    intro i r e he
    rw [endLoop]
    split
    · split
      · exact Nat.le_refl e
      · exact Nat.le_trans (Nat.le_succ_of_le he) (ih (i + 1) _ (i + 1) (Nat.le_refl _))
    · exact Nat.le_refl e

theorem fit_end_joint (panes : List PaneData) (start : Nat) :
    ∀ fuel i r visible e,
      panes.length ≤ fuel + i → i ≤ panes.length →
      ((visible = [] ∧ e = start ∧ start = i) ∨ (visible ≠ [] ∧ e = i ∧ start < i)) →
      (fitLoop panes fuel i r visible).1
          = visible ++ List.range' i (endLoop panes start fuel i r e - i)
        ∧ i ≤ endLoop panes start fuel i r e
        ∧ endLoop panes start fuel i r e ≤ panes.length
        ∧ (fitLoop panes fuel i r visible).2
            = r - ((List.range' i (endLoop panes start fuel i r e - i)).map
                (minAt panes)).sum := by
  intro fuel
  induction fuel with
  | zero =>
    intro i r visible e hfuel hi hinv
    have he : e = i := by
      rcases hinv with ⟨_, h1, h2⟩ | ⟨_, h1, _⟩ <;> omega
    rw [fitLoop, endLoop, he]
    simp [hi]
  | succ fuel ih =>
    intro i r visible e hfuel hi hinv
    rw [fitLoop, endLoop]
    by_cases hlt : i < panes.length
    · rw [if_pos hlt, if_pos hlt]
      have hvis : (visible ≠ []) ↔ (start < e) := by
        rcases hinv with ⟨h1, h2, h3⟩ | ⟨h1, h2, h3⟩
        · constructor
          · intro hx; exact absurd h1 hx
          · intro hx; omega
        · constructor
          · intro _; omega
          · intro _; exact h1
      by_cases hcond : r < minAt panes i + reservedBelow panes.length i ∧ visible ≠ []
      · rw [if_pos hcond, if_pos ⟨hcond.1, hvis.mp hcond.2⟩]
        have he : e = i := by
          rcases hinv with ⟨h1, _, _⟩ | ⟨_, h1, _⟩
          · exact absurd h1 hcond.2
          · exact h1
        rw [he]
        simp [hi]
      · rw [if_neg hcond, if_neg (fun hx => hcond ⟨hx.1, hvis.mpr hx.2⟩)]
        have hstart_le : start ≤ i := by
          rcases hinv with ⟨_, _, h3⟩ | ⟨_, _, h3⟩ <;> omega
        obtain ⟨h1, h2, h3, h4⟩ :=
          ih (i + 1) (r - minAt panes i) (visible ++ [i]) (i + 1)
            (by omega) (by omega)
            (Or.inr ⟨by simp, rfl, by omega⟩)
        have hsplit : endLoop panes start fuel (i + 1) (r - minAt panes i) (i + 1) - i
            = (endLoop panes start fuel (i + 1) (r - minAt panes i) (i + 1) - (i + 1)) + 1 := by
          omega
        refine ⟨?_, by omega, h3, ?_⟩
        · rw [h1, hsplit, List.range'_succ, List.append_assoc]
          rfl
        · rw [h4, hsplit, List.range'_succ, List.map_cons, List.sum_cons, Nat.sub_sub]
    · rw [if_neg hlt, if_neg hlt]
      have he : e = i := by
        rcases hinv with ⟨_, h1, h2⟩ | ⟨_, h1, _⟩ <;> omega
      rw [he]
      simp [hi]

theorem endLoop_of_le (panes : List PaneData) (start : Nat) :
    ∀ fuel i r e, panes.length ≤ i → endLoop panes start fuel i r e = e := by
  intro fuel
  cases fuel with
  | zero => intro i r e _; rfl
  | succ fuel =>
    intro i r e hi
    rw [endLoop, if_neg (by omega)]

theorem minsum_bound (panes : List PaneData) (start : Nat) :
    ∀ fuel i r e,
      panes.length ≤ fuel + i → i < panes.length → start ≤ i → e ≤ i →
      minAt panes i + reservedBelow panes.length i ≤ r →
      ((List.range' i (endLoop panes start fuel i r e - i)).map (minAt panes)).sum
        + (if endLoop panes start fuel i r e < panes.length then 1 else 0) ≤ r := by
  intro fuel
  induction fuel with
  | zero => intro i r e hfuel hi _ _ _; omega
  | succ fuel ih =>
    intro i r e hfuel hi hs he hfit
    rw [endLoop, if_pos hi, if_neg (fun hx => absurd hx.1 (Nat.not_lt.mpr hfit))]
    by_cases hnext : i + 1 < panes.length
    · have hres : reservedBelow panes.length i = 1 := by
        rw [reservedBelow, if_pos (by omega)]
        rfl
      by_cases hc : r - minAt panes i
          < minAt panes (i + 1) + reservedBelow panes.length (i + 1)
      · have hE : endLoop panes start fuel (i + 1) (r - minAt panes i) (i + 1) = i + 1 := by
          cases fuel with
          | zero => rfl
          | succ f =>
            rw [endLoop, if_pos hnext, if_pos ⟨hc, by omega⟩]
        rw [hE]
        simp only [Nat.add_sub_cancel_left, List.range'_one, List.map_cons, List.map_nil,
          List.sum_cons, List.sum_nil, if_pos hnext]
        omega
      · have hge : i + 1 ≤ endLoop panes start fuel (i + 1) (r - minAt panes i) (i + 1) :=
          endLoop_ge panes start fuel (i + 1) _ (i + 1) (Nat.le_refl _)
        have hrec := ih (i + 1) (r - minAt panes i) (i + 1) (by omega) hnext (by omega)
          (Nat.le_refl _) (Nat.not_lt.mp hc)
        have hsplit : endLoop panes start fuel (i + 1) (r - minAt panes i) (i + 1) - i
            = (endLoop panes start fuel (i + 1) (r - minAt panes i) (i + 1) - (i + 1)) + 1 := by
          omega
        rw [hsplit, List.range'_succ, List.map_cons, List.sum_cons]
        omega
    · have hE : endLoop panes start fuel (i + 1) (r - minAt panes i) (i + 1) = i + 1 :=
        endLoop_of_le panes start fuel (i + 1) _ (i + 1) (by omega)
      rw [hE]
      simp only [Nat.add_sub_cancel_left, List.range'_one, List.map_cons, List.map_nil,
        List.sum_cons, List.sum_nil, if_neg (by omega : ¬ i + 1 < panes.length)]
      omega

theorem cve_gt (panes : List PaneData) (start H : Nat) (hs : start < panes.length) :
    start < compute_visible_end panes start H := by
  rw [compute_visible_end]
  obtain ⟨f, hf⟩ : ∃ f, panes.length = f + 1 := ⟨panes.length - 1, by omega⟩
  rw [hf]
  rw [endLoop, if_pos (by omega), if_neg (fun hx => by omega)]
  exact endLoop_ge panes start f (start + 1) _ (start + 1) (Nat.le_refl _)

theorem ensureLoop_some (panes : List PaneData) (focused H : Nat) :
    ∀ fuel vs, vs < panes.length → panes.length ≤ fuel + vs →
      ∃ v, ensureLoop panes focused H fuel vs = some v := by
  intro fuel
  induction fuel with
  | zero => intro vs h1 h2; omega
  | succ fuel ih =>
    intro vs h1 h2
    rw [ensureLoop]
    by_cases hc : focused < compute_visible_end panes vs H
    · exact ⟨vs, if_pos hc⟩
    · rw [if_neg hc]
      by_cases hl : panes.length ≤ vs + 1
      · exact ⟨panes.length - 1, if_pos hl⟩
      · rw [if_neg hl]
        exact ih (vs + 1) (by omega) (by omega)

theorem ensureLoop_spec (panes : List PaneData) (focused H : Nat) :
    ∀ fuel vs v, vs ≤ focused → focused < panes.length → vs < panes.length →
      ensureLoop panes focused H fuel vs = some v →
      v ≤ focused ∧ v < panes.length ∧ focused < compute_visible_end panes v H := by
  intro fuel
  induction fuel with
  | zero => intro vs v _ _ _ h; exact absurd h (by rw [ensureLoop]; simp)
  | succ fuel ih =>
    intro vs v hvf hf hvs h
    rw [ensureLoop] at h
    by_cases hc : focused < compute_visible_end panes vs H
    · rw [if_pos hc] at h
      cases h
      exact ⟨hvf, hvs, hc⟩
    · rw [if_neg hc] at h
      have hend : vs < compute_visible_end panes vs H := cve_gt panes vs H hvs
      by_cases hl : panes.length ≤ vs + 1
      · rw [if_pos hl] at h
        omega
      · rw [if_neg hl] at h
        exact ih (vs + 1) v (by omega) hf (by omega) h

theorem ensure_spec (panes : List PaneData) (focused vs H : Nat)
    (hf : focused < panes.length) (hvs : vs < panes.length) :
    ensure_focused_visible panes focused vs H ≤ focused
    ∧ ensure_focused_visible panes focused vs H < panes.length
    ∧ focused < compute_visible_end panes
        (ensure_focused_visible panes focused vs H) H := by
  rw [ensure_focused_visible, if_neg (by omega)]
  by_cases hlt : focused < vs
  · rw [if_pos hlt]
    exact ⟨Nat.le_refl _, hf, cve_gt panes focused H hf⟩
  · rw [if_neg hlt]
    obtain ⟨v, hv⟩ := ensureLoop_some panes focused H panes.length vs hvs (by omega)
    rw [hv]
    exact ensureLoop_spec panes focused H panes.length vs v (by omega) hf hvs hv

theorem emitRects_map_fst (x w : Nat) :
    ∀ (l : List (Nat × Nat)) (y : Nat),
      (emitRects x w l y).map Prod.fst = l.map Prod.fst := by
  intro l
  induction l with
  | nil => intro y; rfl
  | cons ph rest ih =>
    intro y
    rw [emitRects]
    rw [List.map_cons, List.map_cons, ih]

theorem emitRects_heights (x w : Nat) :
    ∀ (l : List (Nat × Nat)) (y : Nat),
      (emitRects x w l y).map (fun pr => pr.2.height) = l.map Prod.snd := by
  intro l
  induction l with
  | nil => intro y; rfl
  | cons ph rest ih =>
    intro y
    rw [emitRects]
    rw [List.map_cons, List.map_cons, ih]

theorem distLoop_length (panes : List PaneData) (r w : Nat) :
    ∀ (l : List Nat) (d : Nat), (distLoop panes r w d l).length = l.length := by
  intro l
  induction l with
  | nil => intro d; rfl
  | cons i rest ih =>
    intro d
    rw [distLoop]
    split_ifs <;> simp [ih]

theorem paneHeights_length (panes : List PaneData) (visible : List Nat) (r w : Nat) :
    (paneHeights panes visible r w).length = visible.length := by
  rw [paneHeights]
  split_ifs
  · exact distLoop_length panes r w visible 0
  · exact List.length_map visible _

theorem getLast?_range'_getD (s : Nat) :
    ∀ k, (((List.range' s k).getLast?).map (fun i => i + 1)).getD s = s + k := by
  intro k
  cases k with
  | zero => rfl
  | succ n =>
    rw [List.range'_concat, List.getLast?_concat]
    simp
    omega

/-- Unfolding of `compute_visible_layout` against `compute_visible_end`: for
an in-range `viewport_start`, the emitted pane indices are exactly
`start, ..., end-1`, the returned `visible_end` is `compute_visible_end`, and
the emitted heights are the `paneHeights` of that window. -/
theorem layout_characterization (panes : List PaneData) (start : Nat) (area : Rect)
    (hs : start < panes.length) :
    (compute_visible_layout panes start area).1.map Prod.fst
        = List.range' start (compute_visible_end panes start area.height - start)
    ∧ (compute_visible_layout panes start area).2
        = compute_visible_end panes start area.height
    ∧ (compute_visible_layout panes start area).1.map (fun pr => pr.2.height)
        = paneHeights panes
            (List.range' start (compute_visible_end panes start area.height - start))
            ((area.height - (if 0 < start then INDICATOR_HEIGHT else 0)
              - ((List.range' start
                    (compute_visible_end panes start area.height - start)).map
                  (minAt panes)).sum)
             - (if compute_visible_end panes start area.height < panes.length
                then INDICATOR_HEIGHT else 0))
            ((expandedWeights panes
              (List.range' start
                (compute_visible_end panes start area.height - start))).sum) := by
  obtain ⟨h1, h2, h3, h4⟩ := fit_end_joint panes start panes.length start
    (area.height - (if 0 < start then INDICATOR_HEIGHT else 0)) [] start
    (by omega) (by omega) (Or.inl ⟨rfl, rfl, rfl⟩)
  rw [List.nil_append] at h1
  have hE : endLoop panes start panes.length start
      (area.height - (if 0 < start then INDICATOR_HEIGHT else 0)) start
      = compute_visible_end panes start area.height := rfl
  rw [hE] at h1 h2 h4
  rw [compute_visible_layout]
  rw [h1, h4]
  have hend : (((List.range' start (compute_visible_end panes start area.height - start)).getLast?).map
        (fun i => i + 1)).getD start = compute_visible_end panes start area.height := by
    rw [getLast?_range'_getD]
    omega
  rw [hend]
  refine ⟨?_, rfl, ?_⟩
  · rw [emitRects_map_fst, List.map_fst_zip]
    rw [paneHeights_length, List.length_range']
  · rw [emitRects_heights, List.map_snd_zip]
    rw [paneHeights_length, List.length_range']

/-- C1: for every non-empty pane sequence (with the data-model invariants
`focused < len` and `viewport_start < len`) and every screen of height at
least MIN_EXPANDED_HEIGHT, after `ensure_focused_visible` the layout emitted
by `compute_visible_layout` contains an entry for the focused pane. -/
theorem focused_pane_always_visible (panes : List PaneData) (focused vs : Nat)
    (area : Rect) (_hne : panes ≠ []) (hf : focused < panes.length)
    (hvs : vs < panes.length) (_hH : MIN_EXPANDED_HEIGHT ≤ area.height) :
    focused ∈ (compute_visible_layout panes
        (ensure_focused_visible panes focused vs area.height) area).1.map Prod.fst := by
  obtain ⟨hle, hlt, hcve⟩ := ensure_spec panes focused vs area.height hf hvs
  obtain ⟨hfst, _, _⟩ := layout_characterization panes
    (ensure_focused_visible panes focused vs area.height) area hlt
  rw [hfst, List.mem_range']
  refine ⟨focused - ensure_focused_visible panes focused vs area.height, by omega, by omega⟩

/-- C1 witness: six minimum-size panes on a screen fitting three, focused on
pane 5 with the viewport at 0: the adjusted layout contains pane 5. -/
theorem focused_pane_always_visible_witness :
    5 ∈ (compute_visible_layout (List.replicate 6 (PaneData.new 0 "s" 10 5))
        (ensure_focused_visible (List.replicate 6 (PaneData.new 0 "s" 10 5)) 5 0 17)
        ⟨0, 0, 30, 17⟩).1.map Prod.fst :=
  focused_pane_always_visible (List.replicate 6 (PaneData.new 0 "s" 10 5)) 5 0
    ⟨0, 0, 30, 17⟩ (by decide) (by decide) (by decide) (by decide)

/-- C9: the loop of `ensure_focused_visible` terminates for every app state
(with `viewport_start` in range) and screen height: with `panes.length` fuel
— one unit per increment of `viewport_start`, which is clamped at `len - 1` —
the fueled model of the source's unbounded `loop` always returns. -/
theorem ensure_loop_terminates (panes : List PaneData) (focused vs H : Nat)
    (hvs : vs < panes.length) :
    (ensureLoop panes focused H panes.length vs).isSome = true := by
  obtain ⟨v, hv⟩ := ensureLoop_some panes focused H panes.length vs hvs (by omega)
  rw [hv]
  rfl

/-- C9 witness: the loop returns on six panes with the focus far below the
viewport. -/
theorem ensure_loop_terminates_witness :
    (ensureLoop (List.replicate 6 (PaneData.new 0 "s" 10 5)) 5 17 6 0).isSome = true :=
  ensure_loop_terminates (List.replicate 6 (PaneData.new 0 "s" 10 5)) 5 0 17 (by decide)

theorem div_add_div_le (a b c : Nat) (hc : 0 < c) : a / c + b / c ≤ (a + b) / c := by
  rw [Nat.le_div_iff_mul_le hc, Nat.add_mul]
  exact Nat.add_le_add (Nat.div_mul_le_self a c) (Nat.div_mul_le_self b c)

theorem distLoop_no_expanded (panes : List PaneData) (r w : Nat) :
    ∀ (l : List Nat) (d : Nat), hasExpanded panes l = false →
      distLoop panes r w d l = l.map (minAt panes) := by
  intro l
  induction l with
  | nil => intro d _; rfl
  | cons i rest ih =>
    intro d hexp
    rw [hasExpanded, List.any_cons] at hexp
    have hcol : collapsedAt panes i = true := by
      cases hcl : collapsedAt panes i
      · rw [hcl] at hexp; simp at hexp
      · rfl
    have hrest : hasExpanded panes rest = false := by
      rw [hcol] at hexp
      simpa [hasExpanded] using hexp
    rw [distLoop, if_pos hcol, ih d hrest, List.map_cons]

theorem expandedWeights_cons_collapsed (panes : List PaneData) (i : Nat)
    (rest : List Nat) (h : collapsedAt panes i = true) :
    expandedWeights panes (i :: rest) = expandedWeights panes rest := by
  rw [expandedWeights, expandedWeights, List.filter_cons]
  simp [h]

theorem expandedWeights_cons_expanded (panes : List PaneData) (i : Nat)
    (rest : List Nat) (h : collapsedAt panes i = false) :
    expandedWeights panes (i :: rest)
      = weightAt panes i :: expandedWeights panes rest := by
  rw [expandedWeights, expandedWeights, List.filter_cons]
  simp [h]

theorem distLoop_sum (panes : List PaneData) (r w : Nat) (hw : 0 < w) :
    ∀ (l : List Nat) (d : Nat), hasExpanded panes l = true →
      d + r * (expandedWeights panes l).sum / w ≤ r →
      (distLoop panes r w d l).sum = (l.map (minAt panes)).sum + (r - d) := by
  intro l
  induction l with
  | nil => intro d hexp _; simp [hasExpanded] at hexp
  | cons i rest ih =>
    intro d hexp hbound
    cases hcol : collapsedAt panes i with
    | true =>
      have hrest : hasExpanded panes rest = true := by
        rw [hasExpanded, List.any_cons, hcol] at hexp
        simpa [hasExpanded] using hexp
      have hbound' : d + r * (expandedWeights panes rest).sum / w ≤ r := by
        rwa [expandedWeights_cons_collapsed panes i rest hcol] at hbound
      rw [distLoop, if_pos hcol, List.sum_cons, ih d hrest hbound',
        List.map_cons, List.sum_cons]
      omega
    | false =>
      rw [expandedWeights_cons_expanded panes i rest hcol, List.sum_cons] at hbound
      have hf1_le_all : r * weightAt panes i / w
          ≤ r * (weightAt panes i + (expandedWeights panes rest).sum) / w :=
        Nat.div_le_div_right (Nat.mul_le_mul_left r (Nat.le_add_right _ _))
      cases hrest : hasExpanded panes rest with
      | true =>
        have hsplit : r * weightAt panes i / w
              + r * (expandedWeights panes rest).sum / w
            ≤ r * (weightAt panes i + (expandedWeights panes rest).sum) / w := by
          have := div_add_div_le (r * weightAt panes i)
            (r * (expandedWeights panes rest).sum) w hw
          rwa [← Nat.mul_add] at this
        have hbound' : (d + r * weightAt panes i / w)
            + r * (expandedWeights panes rest).sum / w ≤ r := by
          omega
        rw [distLoop, if_neg (by rw [hcol]; exact Bool.false_ne_true), if_pos hrest,
          List.sum_cons, ih (d + r * weightAt panes i / w) hrest hbound',
          List.map_cons, List.sum_cons]
        set F := r * weightAt panes i / w with hF
        clear_value F
        omega
      | false =>
        rw [distLoop, if_neg (by rw [hcol]; exact Bool.false_ne_true),
          if_neg (by rw [hrest]; exact Bool.false_ne_true),
          List.sum_cons, distLoop_no_expanded panes r w rest d hrest,
          List.map_cons, List.sum_cons]
        omega

theorem cve_le (panes : List PaneData) (start H : Nat) (hs : start < panes.length) :
    compute_visible_end panes start H ≤ panes.length :=
  (fit_end_joint panes start panes.length start
    (H - (if 0 < start then INDICATOR_HEIGHT else 0)) [] start
    (by omega) (by omega) (Or.inl ⟨rfl, rfl, rfl⟩)).2.2.1

theorem minAt_pos (panes : List PaneData) (i : Nat) : 0 < minAt panes i := by
  rw [minAt, minPaneHeight]
  split
  · rw [COLLAPSED_HEIGHT]; omega
  · rw [MIN_EXPANDED_HEIGHT]; omega

theorem getD_mem_panes {panes : List PaneData} {i : Nat} (h : i < panes.length) :
    panes.getD i default ∈ panes := by
  rw [List.getD_eq_getElem panes default h]
  exact List.getElem_mem h

theorem expandedWeights_sum_pos (panes : List PaneData) (visible : List Nat)
    (hw : ∀ p ∈ panes, 1 ≤ p.weight)
    (hmem : ∀ i ∈ visible, i < panes.length)
    (hexp : hasExpanded panes visible = true) :
    0 < (expandedWeights panes visible).sum := by
  rw [hasExpanded, List.any_eq_true] at hexp
  rcases hexp with ⟨i, hi, hci⟩
  have hwin : weightAt panes i ∈ expandedWeights panes visible := by
    rw [expandedWeights]
    exact List.mem_map_of_mem (weightAt panes) (List.mem_filter.mpr ⟨hi, hci⟩)
  have hle : weightAt panes i ≤ (expandedWeights panes visible).sum :=
    List.single_le_sum (fun x _ => Nat.zero_le x) _ hwin
  have hpos : 1 ≤ weightAt panes i := hw _ (getD_mem_panes (hmem i hi))
  omega

theorem minsum_window_pos (panes : List PaneData) (start E : Nat) (h : start < E) :
    0 < ((List.range' start (E - start)).map (minAt panes)).sum := by
  obtain ⟨k, hk⟩ : ∃ k, E - start = k + 1 := ⟨E - start - 1, by omega⟩
  rw [hk, List.range'_succ, List.map_cons, List.sum_cons]
  have := minAt_pos panes start
  omega

theorem paneHeights_sum_pos (panes : List PaneData) (visible : List Nat) (r : Nat)
    (hexp : hasExpanded panes visible = true) (hr : 0 < r)
    (hW : 0 < (expandedWeights panes visible).sum) :
    (paneHeights panes visible r (expandedWeights panes visible).sum).sum
      = (visible.map (minAt panes)).sum + r := by
  rw [paneHeights, if_pos ⟨hexp, hr, hW⟩,
    distLoop_sum panes r _ hW visible 0 hexp
      (le_of_eq (by rw [Nat.zero_add]; exact Nat.mul_div_cancel r hW)),
    Nat.sub_zero]

theorem paneHeights_sum_le (panes : List PaneData) (visible : List Nat) (r : Nat) :
    (paneHeights panes visible r (expandedWeights panes visible).sum).sum
      ≤ (visible.map (minAt panes)).sum + r := by
  by_cases h : hasExpanded panes visible = true ∧ 0 < r
      ∧ 0 < (expandedWeights panes visible).sum
  · exact le_of_eq (paneHeights_sum_pos panes visible r h.1 h.2.1 h.2.2)
  · rw [paneHeights, if_neg h]
    exact Nat.le_add_right _ _

/-- C2 counterexample: one collapsed pane on a screen of height 10 with
`viewport_start = 0`: there is no indicator, the admitted minimum height is 3,
so 7 rows of slack remain, yet the emitted heights sum to 3, not 10 — slack is
distributed only over expanded panes, so the claimed equality fails. -/
theorem layout_sum_counterexample :
    0 < (10 : Nat) - (0 + 3 + 0)
    ∧ (((compute_visible_layout
          [{ PaneData.new 0 "Shell" 10 5 with collapsed := true }] 0
          ⟨0, 0, 20, 10⟩).1.map (fun pr => pr.2.height)).sum + 0 + 0 ≠ 10)
    ∧ ((compute_visible_layout
          [{ PaneData.new 0 "Shell" 10 5 with collapsed := true }] 0
          ⟨0, 0, 20, 10⟩).1.map (fun pr => pr.2.height)).sum
        = ([(0 : Nat)].map (minAt
            [{ PaneData.new 0 "Shell" 10 5 with collapsed := true }])).sum := by
  decide

/-- C2 (amended): writing `top`/`bottom` for the indicator reservations and
`minSum` for the admitted panes' minimum heights, the emitted heights satisfy:
if slack `H - (top + minSum + bottom)` is positive and at least one admitted
pane is expanded (weights being at least 1), the heights plus reservations sum
exactly to the screen height, the last expanded pane absorbing the remainder;
and whenever the first admitted pane fits its minimum height plus reservation
in the post-top-indicator budget — in particular whenever no slack remains but
the window was not forced by the always-admit-one rule — the heights plus
reservations sum to at most the screen height. -/
theorem layout_sum_closure (panes : List PaneData) (start : Nat) (area : Rect)
    (hw : ∀ p ∈ panes, 1 ≤ p.weight) (hstart : start < panes.length) :
    (0 < area.height
        - ((if 0 < start then INDICATOR_HEIGHT else 0)
           + (((compute_visible_layout panes start area).1.map Prod.fst).map
               (minAt panes)).sum
           + (if (compute_visible_layout panes start area).2 < panes.length
              then INDICATOR_HEIGHT else 0))
      → hasExpanded panes ((compute_visible_layout panes start area).1.map Prod.fst)
          = true
      → ((compute_visible_layout panes start area).1.map (fun pr => pr.2.height)).sum
          + (if 0 < start then INDICATOR_HEIGHT else 0)
          + (if (compute_visible_layout panes start area).2 < panes.length
             then INDICATOR_HEIGHT else 0)
        = area.height)
    ∧ (minAt panes start + reservedBelow panes.length start
          ≤ area.height - (if 0 < start then INDICATOR_HEIGHT else 0)
      → ((compute_visible_layout panes start area).1.map (fun pr => pr.2.height)).sum
          + (if 0 < start then INDICATOR_HEIGHT else 0)
          + (if (compute_visible_layout panes start area).2 < panes.length
             then INDICATOR_HEIGHT else 0)
        ≤ area.height) := by
  obtain ⟨hfst, hend, hhts⟩ := layout_characterization panes start area hstart
  have hEgt : start < compute_visible_end panes start area.height :=
    cve_gt panes start area.height hstart
  have hEle : compute_visible_end panes start area.height ≤ panes.length :=
    cve_le panes start area.height hstart
  have hmem : ∀ i ∈ List.range' start
      (compute_visible_end panes start area.height - start), i < panes.length := by
    intro i hi
    rw [List.mem_range'] at hi
    rcases hi with ⟨j, hj, hij⟩
    omega
  have hMpos : 0 < ((List.range' start
      (compute_visible_end panes start area.height - start)).map (minAt panes)).sum :=
    minsum_window_pos panes start _ hEgt
  simp only [INDICATOR_HEIGHT] at hhts
  rw [hfst, hend, hhts]
  simp only [INDICATOR_HEIGHT]
  constructor
  · intro hslack hexp
    have hWpos : 0 < (expandedWeights panes
        (List.range' start (compute_visible_end panes start area.height - start))).sum :=
      expandedWeights_sum_pos panes _ hw hmem hexp
    have hrpos : 0 < area.height - (if 0 < start then 1 else 0)
        - ((List.range' start (compute_visible_end panes start area.height - start)).map
            (minAt panes)).sum
        - (if compute_visible_end panes start area.height < panes.length
           then 1 else 0) := by
      omega
    rw [paneHeights_sum_pos panes _ _ hexp hrpos hWpos]
    omega
  · intro hfit
    have hbound := minsum_bound panes start panes.length start
      (area.height - (if 0 < start then 1 else 0)) start
      (by omega) hstart (Nat.le_refl _) (Nat.le_refl _) hfit
    have hEdef : endLoop panes start panes.length start
        (area.height - (if 0 < start then 1 else 0)) start
        = compute_visible_end panes start area.height := by
      rw [compute_visible_end]
      simp only [INDICATOR_HEIGHT]
    rw [hEdef] at hbound
    have hse := paneHeights_sum_le panes
      (List.range' start (compute_visible_end panes start area.height - start))
      (area.height - (if 0 < start then 1 else 0)
        - ((List.range' start (compute_visible_end panes start area.height - start)).map
            (minAt panes)).sum
        - (if compute_visible_end panes start area.height < panes.length then 1 else 0))
    omega

/-- C2 witness: three panes (the middle one collapsed) on a screen of height
20 with no indicators: slack is positive, expanded panes exist, and the
emitted heights plus reservations sum exactly to 20. -/
theorem layout_sum_closure_witness :
    ((compute_visible_layout
        [PaneData.new 0 "a" 10 5, { PaneData.new 1 "b" 10 5 with collapsed := true },
         PaneData.new 2 "c" 10 5] 0 ⟨0, 0, 30, 20⟩).1.map (fun pr => pr.2.height)).sum
      + (if 0 < 0 then INDICATOR_HEIGHT else 0)
      + (if (compute_visible_layout
          [PaneData.new 0 "a" 10 5, { PaneData.new 1 "b" 10 5 with collapsed := true },
           PaneData.new 2 "c" 10 5] 0 ⟨0, 0, 30, 20⟩).2
          < [PaneData.new 0 "a" 10 5, { PaneData.new 1 "b" 10 5 with collapsed := true },
             PaneData.new 2 "c" 10 5].length then INDICATOR_HEIGHT else 0)
      = 20 :=
  (layout_sum_closure
    [PaneData.new 0 "a" 10 5, { PaneData.new 1 "b" 10 5 with collapsed := true },
     PaneData.new 2 "c" 10 5] 0 ⟨0, 0, 30, 20⟩ (by decide) (by decide)).1
    (by decide) (by decide)

/-- C8 witness: a trace with one data read then EOF. -/
theorem closed_is_last_event_witness :
    (readerEmits [ReadResult.ok [104], ReadResult.ok []]).count PtyEventM.closed = 1
    ∧ (readerEmits [ReadResult.ok [104], ReadResult.ok []]).getLast?
        = some PtyEventM.closed
    ∧ forwardPane (readerEmits [ReadResult.ok [104], ReadResult.ok []]
        ++ [PtyEventM.data [0]])
      = readerEmits [ReadResult.ok [104], ReadResult.ok []] :=
  closed_is_last_event [ReadResult.ok [104], ReadResult.ok []] [PtyEventM.data [0]]
    (by decide)

end Bamboo
